import Mathlib

/-!
Shallow embedding of the core of `github-sniffer` (src/main.go, current
variant): the repository Lister `getRepos`, the commit-email Fetcher
`getRepoEmails`, and the Coordinator `checkServer`, together with the
HTTP request construction both fetch operations share.

External effects (the HTTP round trip and the fixed-shape JSON decode)
are passed in as explicit parameters, so every function below is the
pure control flow of the corresponding Go function.
-/

/-- Go struct `Author` (src/main.go lines 307-309): the `email` field of a
commit author object. -/
structure Author where
  email : String
  deriving DecidableEq, Repr

/-- Go struct `Commit` (src/main.go lines 310-312): the nested `author`
object of a commit. -/
structure Commit where
  author : Author
  deriving DecidableEq, Repr

/-- Go struct `CommitDataPiece` (src/main.go lines 313-315): one element of
the decoded commits response. -/
structure CommitDataPiece where
  commit : Commit
  deriving DecidableEq, Repr

/-- Go struct `RepoDataPiece` (src/main.go lines 317-319): one element of
the decoded repositories response, exposing the repository full name. -/
structure RepoDataPiece where
  FullName : String
  deriving DecidableEq, Repr

/-- Go constant `baseRepos` (src/main.go line 304). -/
def baseRepos : String := "https://api.github.com/repos"

/-- Go constant `baseUsers` (src/main.go line 305). -/
def baseUsers : String := "https://api.github.com/users"

/-- An outgoing HTTP GET request as built by `getRepos` and
`getRepoEmails`: the URL and the header list.  `http.NewRequest` starts
with no headers; the only header either function ever sets is the
Authorization header. -/
structure HttpRequest where
  url : String
  headers : List (String × String)
  deriving DecidableEq, Repr

/-- The request built by `getRepos` (src/main.go lines 347-358): URL
`baseUsers/<user>/repos`, and the bearer Authorization header exactly when
the process-wide `auth` flag is non-empty. -/
def getReposRequest (user auth : String) : HttpRequest :=
  { url := baseUsers ++ "/" ++ user ++ "/repos"
    headers := if auth = "" then [] else [("Authorization", "Bearer " ++ auth)] }

/-- The request built by `getRepoEmails` (src/main.go lines 390-398): URL
`baseRepos/<fullName>/commits`, and the bearer Authorization header exactly
when the process-wide `auth` flag is non-empty. -/
def getRepoEmailsRequest (fullName auth : String) : HttpRequest :=
  { url := baseRepos ++ "/" ++ fullName ++ "/commits"
    headers := if auth = "" then [] else [("Authorization", "Bearer " ++ auth)] }

/-- Outcome of one of the two fetch functions.  Go returns the pair
`(error, []string)`; additionally `getRepos` contains a `log.Fatal` call,
which terminates the whole process instead of returning, modelled by the
`fatal` constructor. -/
inductive FetchOutcome where
  | fatal (e : String)
  | result (err : Option String) (data : List String)
  deriving DecidableEq, Repr

/-- Control flow of `getRepos` (src/main.go lines 340-382).
`netResult` abstracts the transport part (request construction, `c.Do`,
`io.ReadAll`): either an error or the body string.  `unmarshalRepos`
abstracts `json.Unmarshal` of the body into `[]RepoDataPiece`.  On a
transport error the Go code returns `(err, data)` with `data` still the
empty list; on a decode error it calls `log.Fatal(err, string(body))`
(line 372), which exits the process, the `return err, data` after it being
dead code; on success it returns the `FullName` of each decoded element in
response order. -/
def getRepos (netResult : Except String String)
    (unmarshalRepos : String → Except String (List RepoDataPiece)) : FetchOutcome :=
  match netResult with
  | .error e => .result (some e) []
  | .ok body =>
    match unmarshalRepos body with
    | .error e => .fatal e
    | .ok repoData => .result none (repoData.map (fun d => d.FullName))

/-- One step of the deduplication loop shared by `getRepoEmails`
(src/main.go lines 415-423) and `checkServer` (lines 465-473): the state is
the pair of the accumulated `data` list and the `uniqueEmails` set (a Go
map on string keys, modelled as the list of keys with membership as the
lookup).  If the email is already in the set the state is unchanged;
otherwise the email is appended to `data` and added to the set. -/
def emailStep (st : List String × List String) (email : String) :
    List String × List String :=
  if email ∈ st.2 then st else (st.1 ++ [email], email :: st.2)

/-- The deduplication loop of `getRepoEmails` (src/main.go lines 415-423):
fold `emailStep` over the decoded commits, reading each commit's
`d.Commit.Author.Email`, starting from empty `data` and empty
`uniqueEmails`, and return the final `data` list. -/
def getRepoEmailsLoop (commitData : List CommitDataPiece) : List String :=
  (commitData.foldl (fun st d => emailStep st d.commit.author.email) ([], [])).1

/-- Control flow of `getRepoEmails` (src/main.go lines 384-426): transport
error and decode error are both returned as `(err, [])` (this function has
no `log.Fatal`); on success the deduplicated email list is returned with a
nil error. -/
def getRepoEmails (netResult : Except String String)
    (unmarshalCommits : String → Except String (List CommitDataPiece)) : FetchOutcome :=
  match netResult with
  | .error e => .result (some e) []
  | .ok body =>
    match unmarshalCommits body with
    | .error e => .result (some e) []
    | .ok commitData => .result none (getRepoEmailsLoop commitData)

/-- The final merge of `checkServer` (src/main.go lines 464-474): fold the
same deduplicating step over every per-repository email list drained from
the completion channel, in channel (completion) order, starting from empty
`data` and empty `uniqueEmails`. -/
def mergeQueue (queue : List (List String)) : List String :=
  (queue.foldl (fun st repoEmails => repoEmails.foldl emailStep st) ([], [])).1

/-- The message `checkServer`'s thunk produces, plus the possibility that
the process is terminated from inside it: `errMsg` and `dataMsg` are the
two `tea.Msg` values (src/main.go lines 332-333), and `fatal` models a
`log.Fatal` call (process exit, no message ever delivered). -/
inductive Outcome where
  | fatal (e : String)
  | errMsg (e : String)
  | dataMsg (data : List String)
  deriving DecidableEq, Repr

/-- The error, if any, among the fetches for `repos`, scanning in launch
order.  In the Go code (src/main.go lines 451-454) each goroutine calls
`log.Fatal(err)` on its own error; which failing goroutine exits the
process first is timing-dependent, so the model picks the first failing
repository in launch order — unambiguous whenever at most one fetch
fails. -/
def firstFetchError (fetch : String → Except String (List String)) :
    List String → Option String
  | [] => none
  | repo :: rest =>
    match fetch repo with
    | .error e => some e
    | .ok _ => firstFetchError fetch rest

/-- The per-repository email lists of the successful fetches, in launch
order; when no fetch fails this is every goroutine's payload sent on the
completion channel (src/main.go line 458). -/
def fetchSuccesses (fetch : String → Except String (List String)) :
    List String → List (List String)
  | [] => []
  | repo :: rest =>
    match fetch repo with
    | .error _ => fetchSuccesses fetch rest
    | .ok emails => emails :: fetchSuccesses fetch rest

/-- Control flow of `checkServer` (src/main.go lines 432-477).

`listerOutcome` is what `getRepos` did; `fetch` gives each launched
goroutine's `getRepoEmails` result; `arrival` reorders the launched
results into channel completion order (network timing, a permutation).

The pair returned is the delivered outcome together with the list of
repositories for which a Fetcher goroutine was launched.  Branches:
`getRepos` died in `log.Fatal` — the process is already gone, nothing
launched; `getRepos` returned an error — `errMsg` is returned before the
launch loop (lines 437-439), so no goroutine runs; otherwise one goroutine
is launched per repository, and if any fetch fails that goroutine calls
`log.Fatal(err)` (line 453, process exit), else all results are drained
from the channel in completion order and merged. -/
def checkServer (listerOutcome : FetchOutcome)
    (fetch : String → Except String (List String))
    (arrival : List (List String) → List (List String)) :
    Outcome × List String :=
  match listerOutcome with
  | .fatal e => (.fatal e, [])
  | .result (some e) _ => (.errMsg e, [])
  | .result none repos =>
    match firstFetchError fetch repos with
    | some e => (.fatal e, repos)
    | none => (.dataMsg (mergeQueue (arrival (fetchSuccesses fetch repos))), repos)

/-- Go `encoding/json` zero-value semantics for the `Author` struct
(src/main.go lines 307-315): a commit object whose JSON lacks the nested
author email field, or whose author is `null`, leaves the `Email` string
field at its zero value, the empty string.  `none` stands for an absent or
null email in the raw JSON. -/
def decodeAuthorEmail : Option String → String
  | none => ""
  | some e => e

/-- Spec-side reading of the deduplication: scan the emails in order and
append each one the first time it is seen, the set of emails already seen
being exactly the accumulated result. -/
def appendUnique (acc : List String) (email : String) : List String :=
  if email ∈ acc then acc else acc ++ [email]

/-- Spec-side first-seen deduplication of a flat email list. -/
def specFirstSeen (emails : List String) : List String :=
  emails.foldl appendUnique []

/-! Helper lemmas about the deduplication folds. -/

lemma foldl_emailStep_map {α : Type} (f : α → String) (l : List α) :
    ∀ dat seen : List String, (∀ x, x ∈ seen ↔ x ∈ dat) →
      (l.foldl (fun st a => emailStep st (f a)) (dat, seen)).1
        = (l.map f).foldl appendUnique dat := by
  induction l with
  | nil => intro dat seen _; rfl
  | cons a rest ih =>
    intro dat seen hinv
    simp only [List.foldl_cons, List.map_cons]
    by_cases he : f a ∈ seen
    · have hed : f a ∈ dat := (hinv (f a)).mp he
      rw [show emailStep (dat, seen) (f a) = (dat, seen) from by
            simp [emailStep, he],
          show appendUnique dat (f a) = dat from by
            simp [appendUnique, hed]]
      exact ih dat seen hinv
    · have hed : f a ∉ dat := fun hd => he ((hinv (f a)).mpr hd)
      rw [show emailStep (dat, seen) (f a) = (dat ++ [f a], f a :: seen) from by
            simp [emailStep, he],
          show appendUnique dat (f a) = dat ++ [f a] from by
            simp [appendUnique, hed]]
      apply ih
      intro x
      have hx := hinv x
      simp only [List.mem_cons, List.mem_append, List.mem_singleton]
      tauto

lemma foldl_emailStep_fst (l : List String) (dat seen : List String)
    (hinv : ∀ x, x ∈ seen ↔ x ∈ dat) :
    (l.foldl emailStep (dat, seen)).1 = l.foldl appendUnique dat := by
  have h := foldl_emailStep_map id l dat seen hinv
  simpa using h

lemma mem_foldl_appendUnique (l : List String) :
    ∀ (dat : List String) (x : String),
      x ∈ l.foldl appendUnique dat ↔ x ∈ dat ∨ x ∈ l := by
  induction l with
  | nil => intro dat x; simp
  | cons e rest ih =>
    intro dat x
    simp only [List.foldl_cons]
    rw [ih]
    have hau : x ∈ appendUnique dat e ↔ x ∈ dat ∨ x = e := by
      by_cases he : e ∈ dat
      · simp only [appendUnique, if_pos he]
        constructor
        · exact fun h => Or.inl h
        · rintro (h | rfl)
          · exact h
          · exact he
      · simp [appendUnique, he]
    rw [hau, List.mem_cons]
    tauto

lemma nodup_foldl_appendUnique (l : List String) :
    ∀ dat : List String, dat.Nodup → (l.foldl appendUnique dat).Nodup := by
  induction l with
  | nil => intro dat h; exact h
  | cons e rest ih =>
    intro dat h
    simp only [List.foldl_cons]
    apply ih
    by_cases he : e ∈ dat
    · simpa [appendUnique, he] using h
    · rw [show appendUnique dat e = dat.concat e from by
            simp [appendUnique, he, List.concat_eq_append]]
      exact List.Nodup.concat he h

lemma foldl_appendUnique_absorb (l : List String) :
    ∀ dat : List String, (∀ x ∈ l, x ∈ dat) → l.foldl appendUnique dat = dat := by
  induction l with
  | nil => intro dat _; rfl
  | cons e rest ih =>
    intro dat h
    have he : e ∈ dat := h e (List.mem_cons_self e rest)
    simp only [List.foldl_cons]
    rw [show appendUnique dat e = dat from by simp [appendUnique, he]]
    exact ih dat (fun x hx => h x (List.mem_cons_of_mem e hx))

lemma foldl_pairMerge (queue : List (List String)) :
    ∀ st : List String × List String,
      queue.foldl (fun st repoEmails => repoEmails.foldl emailStep st) st
        = (queue.flatten).foldl emailStep st := by
  induction queue with
  | nil => intro st; rfl
  | cons l rest ih =>
    intro st
    simp only [List.foldl_cons, List.flatten_cons, List.foldl_append]
    exact ih _

lemma mergeQueue_eq_join (queue : List (List String)) :
    mergeQueue queue = (queue.flatten).foldl appendUnique [] := by
  unfold mergeQueue
  rw [foldl_pairMerge]
  exact foldl_emailStep_fst _ [] [] (by simp)

lemma getRepoEmailsLoop_eq (commitData : List CommitDataPiece) :
    getRepoEmailsLoop commitData
      = specFirstSeen (commitData.map (fun d => d.commit.author.email)) := by
  unfold getRepoEmailsLoop specFirstSeen
  exact foldl_emailStep_map (fun d => d.commit.author.email) commitData [] [] (by simp)

/-! Claim theorems. -/

/-- C1: the claim says that when exactly one of the N concurrent
`getRepoEmails` goroutines fails, `checkServer` delivers a single `errMsg`
value to the caller and never aborts the process.  The code instead calls
`log.Fatal(err)` inside the failing goroutine (src/main.go line 453):
with two repositories of which only the second fetch fails, the run ends
in a process-fatal abort, no message (neither `errMsg` nor a partial
`dataMsg`) reaching the caller. -/
theorem checkServer_singleFetchFailure_fatal :
    checkServer (.result none ["acc/good", "acc/bad"])
      (fun repo => if repo = "acc/bad" then .error "connection timeout" else .ok ["x@e"])
      id
    = (.fatal "connection timeout", ["acc/good", "acc/bad"]) := by
  rfl

/-- C2: the aggregate list produced by `checkServer`'s final fold over the
completion queue contains each email address at most once, for every queue
of per-repository email lists. -/
theorem mergeQueue_nodup (queue : List (List String)) :
    (mergeQueue queue).Nodup := by
  rw [mergeQueue_eq_join]
  exact nodup_foldl_appendUnique _ [] List.nodup_nil

/-- C3: when `getRepos` returns an error, `checkServer` returns `errMsg`
with that error before the launch loop, so the list of repositories for
which a Fetcher goroutine is launched is empty — zero `getRepoEmails`
calls are issued. -/
theorem checkServer_listerError (e : String) (repos : List String)
    (fetch : String → Except String (List String))
    (arrival : List (List String) → List (List String)) :
    checkServer (.result (some e) repos) fetch arrival = (.errMsg e, []) := by
  rfl

/-- C4: the claim says that on a non-decodable Lister response body
`getRepos` returns an error together with an empty list.  The code instead
calls `log.Fatal(err, string(body))` on the decode error (src/main.go
line 372), exiting the process; the `return err, data` after it is dead
code.  At a concrete body that does not unmarshal, the outcome is the
process-fatal abort, not a returned error-with-empty-list. -/
theorem getRepos_decodeError_fatal :
    getRepos (.ok "not json") (fun _ => .error "invalid character")
      = .fatal "invalid character"
    ∧ getRepos (.ok "not json") (fun _ => .error "invalid character")
      ≠ .result (some "invalid character") [] := by
  exact ⟨rfl, by decide⟩

/-- C5: `getRepoEmails`'s loop returns the unique author emails in
first-seen order — it equals the spec-side first-seen deduplication of the
commits' emails in response order, it never contains a duplicate, an email
is in the output exactly when some commit carries it, and an empty commit
page yields the empty list (also through the full `getRepoEmails`
control flow). -/
theorem getRepoEmails_firstSeen (commitData : List CommitDataPiece) :
    getRepoEmailsLoop commitData
      = specFirstSeen (commitData.map (fun d => d.commit.author.email))
    ∧ (getRepoEmailsLoop commitData).Nodup
    ∧ (∀ e, e ∈ getRepoEmailsLoop commitData
        ↔ e ∈ commitData.map (fun d => d.commit.author.email))
    ∧ getRepoEmailsLoop [] = []
    ∧ (∀ body : String,
        getRepoEmails (.ok body) (fun _ => .ok []) = .result none []) := by
  refine ⟨getRepoEmailsLoop_eq commitData, ?_, ?_, rfl, fun _ => rfl⟩
  · rw [getRepoEmailsLoop_eq]
    exact nodup_foldl_appendUnique _ [] List.nodup_nil
  · intro e
    rw [getRepoEmailsLoop_eq]
    unfold specFirstSeen
    rw [mem_foldl_appendUnique]
    simp

/-- C6: for a Lister success with zero repositories, `checkServer` launches
no Fetcher goroutine (the launched list is empty) and delivers
`dataMsg []`: the merge over the empty completion queue yields the empty
list.  The hypothesis states that the arrival reordering of the empty
sequence of results is empty, which holds of every permutation. -/
theorem checkServer_zeroRepos
    (fetch : String → Except String (List String))
    (arrival : List (List String) → List (List String))
    (h : arrival [] = []) :
    checkServer (.result none []) fetch arrival = (.dataMsg [], []) := by
  unfold checkServer
  simp only [firstFetchError, fetchSuccesses, h]
  rfl

theorem checkServer_zeroRepos_witness :
    checkServer (.result none []) (fun _ => .ok []) id = (.dataMsg [], []) :=
  checkServer_zeroRepos (fun _ => .ok []) id rfl

/-- C7: the deduplicating merge is idempotent — merging a per-repository
email list together with a second copy of itself (either as two queue
entries or concatenated into one) yields the same aggregate list as
merging it once. -/
theorem mergeQueue_idempotent (l : List String) :
    mergeQueue [l, l] = mergeQueue [l] ∧ mergeQueue [l ++ l] = mergeQueue [l] := by
  have hflat : ∀ q : List (List String), mergeQueue q = (q.flatten).foldl appendUnique [] :=
    mergeQueue_eq_join
  have key : (l ++ l).foldl appendUnique [] = l.foldl appendUnique [] := by
    rw [List.foldl_append]
    exact foldl_appendUnique_absorb l _
      (fun x hx => (mem_foldl_appendUnique l [] x).mpr (Or.inr hx))
  constructor
  · rw [hflat [l, l], hflat [l]]
    simpa using key
  · rw [hflat [l ++ l], hflat [l]]
    simpa using key

/-- C8: when the bearer credential is non-empty, both the Lister request
and every Fetcher request carry the Authorization header with value
`Bearer <token>`; when the credential is empty, neither request carries an
Authorization header at all. -/
theorem requests_authHeader (user fullName auth : String) :
    (auth ≠ "" →
      ("Authorization", "Bearer " ++ auth) ∈ (getReposRequest user auth).headers
      ∧ ("Authorization", "Bearer " ++ auth) ∈ (getRepoEmailsRequest fullName auth).headers)
    ∧ (auth = "" →
      (∀ v, ("Authorization", v) ∉ (getReposRequest user auth).headers)
      ∧ (∀ v, ("Authorization", v) ∉ (getRepoEmailsRequest fullName auth).headers)) := by
  constructor
  · intro hne
    constructor
    · simp [getReposRequest, hne]
    · simp [getRepoEmailsRequest, hne]
  · intro heq
    constructor
    · intro v
      simp [getReposRequest, heq]
    · intro v
      simp [getRepoEmailsRequest, heq]

theorem requests_authHeader_witness :
    ("Authorization", "Bearer " ++ "tok") ∈ (getReposRequest "u" "tok").headers
    ∧ (∀ v, ("Authorization", v) ∉ (getRepoEmailsRequest "o/r" "").headers) :=
  ⟨((requests_authHeader "u" "o/r" "tok").1 (by decide)).1,
   ((requests_authHeader "u" "o/r" "").2 rfl).2⟩

/-- C9: the aggregate output is a deterministic function of the
completion-ordered queue of per-repository results — equal queues give
equal outputs — and for the two lists of the spec's example, under either
completion order the aggregate is a permutation of the three distinct
emails with no duplicates. -/
theorem mergeQueue_deterministic_example :
    (∀ q1 q2 : List (List String), q1 = q2 → mergeQueue q1 = mergeQueue q2)
    ∧ (mergeQueue [["x@e", "y@e"], ["y@e", "z@e"]]).Perm ["x@e", "y@e", "z@e"]
    ∧ (mergeQueue [["y@e", "z@e"], ["x@e", "y@e"]]).Perm ["x@e", "y@e", "z@e"]
    ∧ (mergeQueue [["x@e", "y@e"], ["y@e", "z@e"]]).Nodup
    ∧ (mergeQueue [["y@e", "z@e"], ["x@e", "y@e"]]).Nodup := by
  refine ⟨fun q1 q2 h => by rw [h], ?_, ?_, by decide, by decide⟩
  · decide
  · decide

theorem mergeQueue_deterministic_example_witness :
    mergeQueue [["x@e", "y@e"], ["y@e", "z@e"]]
      = mergeQueue [["x@e", "y@e"], ["y@e", "z@e"]] :=
  mergeQueue_deterministic_example.1 _ _ rfl

/-- C10: an absent or null author email decodes to the empty string, and
when at least one commit of the page has no author email, the empty string
appears exactly once in `getRepoEmails`'s output — deduplicated like any
other key. -/
theorem emptyEmail_dedup (raws : List (Option String)) (h : none ∈ raws) :
    decodeAuthorEmail none = ""
    ∧ List.count ""
        (getRepoEmailsLoop
          (raws.map (fun r => ⟨⟨⟨decodeAuthorEmail r⟩⟩⟩))) = 1 := by
  refine ⟨rfl, ?_⟩
  have hmem : "" ∈ getRepoEmailsLoop (raws.map (fun r => ⟨⟨⟨decodeAuthorEmail r⟩⟩⟩)) := by
    rw [getRepoEmailsLoop_eq]
    unfold specFirstSeen
    rw [mem_foldl_appendUnique]
    right
    rw [List.map_map]
    exact List.mem_map.mpr ⟨none, h, rfl⟩
  have hnd : (getRepoEmailsLoop (raws.map (fun r => ⟨⟨⟨decodeAuthorEmail r⟩⟩⟩))).Nodup := by
    rw [getRepoEmailsLoop_eq]
    exact nodup_foldl_appendUnique _ [] List.nodup_nil
  exact List.count_eq_one_of_mem hnd hmem

theorem emptyEmail_dedup_witness :
    List.count ""
      (getRepoEmailsLoop
        ([none, some "a@e", none].map (fun r => ⟨⟨⟨decodeAuthorEmail r⟩⟩⟩))) = 1 :=
  (emptyEmail_dedup [none, some "a@e", none] (by decide)).2
